import Mathlib

/-!
# Verification of the incremental job-sync pipeline (`sync_jobs.py`)

A shallow embedding of the watermark-driven incremental sync script:
watermark resolution, delta fetch, record normalization, batched writes
and the final sync report, together with proofs of the specified
properties.

Modelling conventions:
* Python `datetime` values are modelled by the `DateTime` structure
  (calendar fields, second precision — the script never uses
  sub-second precision in its formats).
* A pandas dataframe cell is a `PyVal`: an integer, a string, a
  timestamp, or the absent value (`None`/`NaN`, which `pd.notna`
  treats identically and which the script's NaN-cleanup loop collapses
  to `None` anyway).
* Fallible Python expressions (`int(...)`, `.isoformat()`) are
  embedded as `Except String` computations so that the script's guard
  structure around them is visible in the model.
* The SQL query is embedded by its semantics: a filter on the
  `uploadDate` column against the interpolated low-bound literal and
  `CURRENT_TIMESTAMP`, followed by a descending sort; the literal
  query text is also embedded (`sql_query`) to reason about which
  bound the script interpolates.
-/

/-- A Python `datetime.datetime` value (second precision). -/
structure DateTime where
  year : Nat
  month : Nat
  day : Nat
  hour : Nat
  minute : Nat
  second : Nat
deriving DecidableEq, Repr

namespace DateTime

/-- Chronological key: mixed-radix encoding that orders valid datetimes
lexicographically by (year, month, day, hour, minute, second). -/
def key (d : DateTime) : Nat :=
  ((((d.year * 13 + d.month) * 32 + d.day) * 24 + d.hour) * 60 + d.minute) * 60 + d.second

/-- Gregorian leap-year test. -/
def isLeap (y : Nat) : Bool :=
  (y % 4 == 0 && y % 100 != 0) || y % 400 == 0

/-- Number of days in a month. -/
def daysInMonth (y m : Nat) : Nat :=
  if m = 2 then (if isLeap y then 29 else 28)
  else if m = 4 ∨ m = 6 ∨ m = 9 ∨ m = 11 then 30
  else 31

/-- `d + timedelta(days=1)`: advance the calendar date by one day,
keeping the time of day. -/
def addOneDay (d : DateTime) : DateTime :=
  if d.day < daysInMonth d.year d.month then
    { d with day := d.day + 1 }
  else if d.month < 12 then
    { d with month := d.month + 1, day := 1 }
  else
    { year := d.year + 1, month := 1, day := 1,
      hour := d.hour, minute := d.minute, second := d.second }

/-- Zero-pad a number to two digits, as `strftime` does. -/
def pad2 (n : Nat) : String :=
  if n < 10 then "0" ++ toString n else toString n

/-- Zero-pad a year to four digits, as `strftime`'s `%Y` does. -/
def pad4 (n : Nat) : String :=
  if n < 10 then "000" ++ toString n
  else if n < 100 then "00" ++ toString n
  else if n < 1000 then "0" ++ toString n
  else toString n

/-- `d.strftime('%Y-%m-%d %H:%M:%S')`. -/
def strftimeSql (d : DateTime) : String :=
  pad4 d.year ++ "-" ++ pad2 d.month ++ "-" ++ pad2 d.day ++ " " ++
    pad2 d.hour ++ ":" ++ pad2 d.minute ++ ":" ++ pad2 d.second

/-- `d.isoformat()` (no sub-second part): `YYYY-MM-DDTHH:MM:SS`. -/
def isoformat (d : DateTime) : String :=
  pad4 d.year ++ "-" ++ pad2 d.month ++ "-" ++ pad2 d.day ++ "T" ++
    pad2 d.hour ++ ":" ++ pad2 d.minute ++ ":" ++ pad2 d.second

end DateTime

/-- Split a character list at every occurrence of a separator. -/
def splitChar (sep : Char) : List Char → List (List Char)
  | [] => [[]]
  | c :: rest =>
    if c = sep then [] :: splitChar sep rest
    else
      match splitChar sep rest with
      | [] => [[c]]
      | h :: t => (c :: h) :: t

/-- Value of a decimal digit character. -/
def digitVal? (c : Char) : Option Nat :=
  if '0' ≤ c ∧ c ≤ '9' then some (c.toNat - '0'.toNat) else none

/-- Read a non-empty all-digit character list as a number. -/
def charsToNat? (cs : List Char) : Option Nat :=
  if cs = [] then none
  else
    cs.foldl
      (fun acc c =>
        match acc, digitVal? c with
        | some a, some d => some (a * 10 + d)
        | _, _ => none)
      (some 0)

/-- Parse a SQL timestamp literal `YYYY-MM-DD HH:MM:SS`, the form the
script interpolates into its query; this is how the database reads the
low-bound literal back into a timestamp. -/
def parseTs (s : String) : Option DateTime :=
  match splitChar ' ' s.data with
  | [datePart, timePart] =>
    match splitChar '-' datePart, splitChar ':' timePart with
    | [ys, ms, ds], [hs, mins, ss] =>
      match charsToNat? ys, charsToNat? ms, charsToNat? ds,
          charsToNat? hs, charsToNat? mins, charsToNat? ss with
      | some y, some mo, some da, some h, some mi, some se =>
        some ⟨y, mo, da, h, mi, se⟩
      | _, _, _, _, _, _ => none
    | _, _ => none
  | _ => none

/-- The epoch sentinel the script falls back to
(`'1970-01-01 00:00:00'`). -/
def epochDT : DateTime := ⟨1970, 1, 1, 0, 0, 0⟩

/-- Outcome of querying the destination for its maximum non-null
`upload_date` (lines 38-67): the query succeeds with either no row or a
maximum value (already normalized to a datetime by the
string/datetime-object branches), or some step of the block raises. -/
inductive WatermarkOutcome where
  | ok (maxUpload : Option DateTime)
  | error
deriving DecidableEq, Repr

/-- The Watermark Resolver (lines 38-80): produces
`(max_upload_date_str, end_date_str)`.  On an empty destination or on
any error the low string is the epoch sentinel and the end string is
the current wall-clock time; otherwise the low string is the formatted
maximum itself and the end string is the maximum advanced by one day. -/
def resolveWatermark (o : WatermarkOutcome) (now : DateTime) : String × String :=
  match o with
  | .ok none => ("1970-01-01 00:00:00", DateTime.strftimeSql now)
  | .ok (some maxUpload) =>
      (DateTime.strftimeSql maxUpload, DateTime.strftimeSql (DateTime.addOneDay maxUpload))
  | .error => ("1970-01-01 00:00:00", DateTime.strftimeSql now)

/-- Fixed text of the SQL query before the interpolated low bound
(lines 83-103). -/
def sqlPre : String :=
  "\nSELECT \n    j.id AS job_id,\n    jr.id AS job_role_id,\n    jr.name AS job_role_name,\n    j.source,\n    j.title,\n    j.company,\n    j.location,\n    j.url,\n    j.description,\n    j.\"rawText\" AS raw_text,\n    j.\"datePosted\" AS date_posted,\n    j.\"hoursBackPosted\" AS hours_back_posted,\n    j.\"yearsExpRequired\" AS years_exp_required,\n    j.\"uploadDate\" AS upload_date,\n    j.\"ingestedAt\" AS ingested_at\nFROM \"karmafy_job\" j\nLEFT JOIN \"karmafy_jobrole\" jr\n       ON j.\"roleId\"::bigint = jr.id\nWHERE j.\"uploadDate\" > '"

/-- Fixed text of the SQL query after the interpolated low bound
(lines 103-106). -/
def sqlPost : String :=
  "'\n  AND j.\"uploadDate\" <= CURRENT_TIMESTAMP\nORDER BY j.\"uploadDate\" DESC;\n"

/-- The f-string `sql_query` (lines 83-106): the only interpolated
value is `max_upload_date_str`, the first component of the resolved
watermark. -/
def sql_query (max_upload_date_str : String) : String :=
  sqlPre ++ max_upload_date_str ++ sqlPost

/-- A pandas dataframe cell / Python value as the script manipulates
it: integer, string, timestamp, or absent (`None`/`NaN`; `pd.notna`
treats both as absent and the NaN-cleanup loop of lines 175-178 maps
NaN to `None`, so the model identifies them). -/
inductive PyVal where
  | vNone
  | vInt (n : Int)
  | vStr (s : String)
  | vTs (t : DateTime)
deriving DecidableEq, Repr

namespace PyVal

/-- `pd.notna(v)`. -/
def notna : PyVal → Bool
  | .vNone => false
  | _ => true

/-- Python `int(v)`: succeeds on an integer (or an integer-looking
string), raises on absent values, non-numeric strings and datetimes. -/
def pyInt : PyVal → Except String Int
  | .vInt n => .ok n
  | .vStr s =>
    match s.toInt? with
    | some n => .ok n
    | none => .error "invalid literal for int()"
  | .vTs _ => .error "int() argument must not be a datetime"
  | .vNone => .error "cannot convert NA to integer"

/-- Python `v.isoformat()`: succeeds only on a datetime, raises
`AttributeError` otherwise. -/
def pyIso : PyVal → Except String String
  | .vTs t => .ok (DateTime.isoformat t)
  | _ => .error "object has no attribute isoformat"

end PyVal

/-- A row of the delta dataframe: the fifteen columns selected by
`sql_query`, in source order. -/
structure Row where
  job_id : PyVal
  job_role_id : PyVal
  job_role_name : PyVal
  source : PyVal
  title : PyVal
  company : PyVal
  location : PyVal
  url : PyVal
  description : PyVal
  raw_text : PyVal
  date_posted : PyVal
  hours_back_posted : PyVal
  years_exp_required : PyVal
  upload_date : PyVal
  ingested_at : PyVal
deriving DecidableEq, Repr

/-- The dictionary built for one row (lines 137-154): the sixteen keys
of the `job_data` dict, with the added constant `country`. -/
structure TargetRecord where
  job_id : PyVal
  job_role_id : PyVal
  job_role_name : PyVal
  source : PyVal
  title : PyVal
  company : PyVal
  location : PyVal
  url : PyVal
  description : PyVal
  raw_text : PyVal
  date_posted : PyVal
  hours_back_posted : PyVal
  years_exp_required : PyVal
  upload_date : PyVal
  ingested_at : PyVal
  country : PyVal
deriving DecidableEq, Repr

/-- `int(v) if pd.notna(v) else dflt` — the guarded integer conversion
used for `job_id`, `job_role_id` and `hours_back_posted`. -/
def guardInt (v dflt : PyVal) : Except String PyVal :=
  if v.notna then Except.map PyVal.vInt v.pyInt else .ok dflt

/-- `v.isoformat() if pd.notna(v) else None` — the guarded rendering
used for the three timestamp columns. -/
def guardIso (v : PyVal) : Except String PyVal :=
  if v.notna then Except.map PyVal.vStr v.pyIso else .ok .vNone

/-- `v if pd.notna(v) else dflt` — the pass-through-or-default used for
the text columns and `years_exp_required`. -/
def passOr (v dflt : PyVal) : PyVal :=
  if v.notna then v else dflt

/-- The Record Normalizer (lines 137-154): build the `job_data` dict
for one row; conversions that Python could raise on live in
`Except`. -/
def job_data (row : Row) : Except String TargetRecord := do
  let jid ← guardInt row.job_id .vNone
  let jrid ← guardInt row.job_role_id .vNone
  let dp ← guardIso row.date_posted
  let hbp ← guardInt row.hours_back_posted (.vInt 0)
  let ud ← guardIso row.upload_date
  let ia ← guardIso row.ingested_at
  .ok
    { job_id := jid
      job_role_id := jrid
      job_role_name := passOr row.job_role_name .vNone
      source := passOr row.source (.vStr "")
      title := passOr row.title (.vStr "")
      company := passOr row.company (.vStr "")
      location := passOr row.location (.vStr "")
      url := passOr row.url (.vStr "")
      description := passOr row.description (.vStr "")
      raw_text := passOr row.raw_text (.vStr "")
      date_posted := dp
      hours_back_posted := hbp
      years_exp_required := passOr row.years_exp_required .vNone
      upload_date := ud
      ingested_at := ia
      country := .vStr "United States of America" }

/-- A cell holds an integer or is absent — what the database schema
guarantees for the id and counter columns. -/
def intLike : PyVal → Bool
  | .vNone => true
  | .vInt _ => true
  | _ => false

/-- A cell holds a timestamp or is absent — what the database schema
guarantees for the timestamp columns. -/
def tsLike : PyVal → Bool
  | .vNone => true
  | .vTs _ => true
  | _ => false

/-- A delta row of the shape the SQL schema delivers: ids and counters
integer-or-absent, timestamps timestamp-or-absent.  (The text columns
and the untyped `years_exp_required` are unconstrained: the script
never converts them.) -/
def wellTypedRow (r : Row) : Bool :=
  intLike r.job_id && intLike r.job_role_id && intLike r.hours_back_posted &&
    tsLike r.date_posted && tsLike r.upload_date && tsLike r.ingested_at

/-- Chronological key of a row's `upload_date` (0 when absent; rows in
the delta always carry a timestamp there). -/
def uploadKey (r : Row) : Nat :=
  match r.upload_date with
  | .vTs t => t.key
  | _ => 0

/-- The descending `ORDER BY j."uploadDate" DESC` relation: `a` comes
before `b` when `a`'s upload date is at least `b`'s. -/
def rowGe (a b : Row) : Prop :=
  uploadKey b ≤ uploadKey a

instance : DecidableRel rowGe := fun _ _ => Nat.decLe _ _

instance : IsTotal Row rowGe :=
  ⟨fun a b => (Nat.le_total (uploadKey b) (uploadKey a)).elim Or.inl Or.inr⟩

instance : IsTrans Row rowGe :=
  ⟨fun _ _ _ h1 h2 => Nat.le_trans h2 h1⟩

/-- The `WHERE` clause of `sql_query` on one row: `uploadDate` is
non-null, strictly after the low bound, and at or before
`CURRENT_TIMESTAMP` (the instant `qnow` at which the query runs).
SQL three-valued logic drops NULL `uploadDate` rows. -/
def inWindow (low qnow : DateTime) (r : Row) : Bool :=
  match r.upload_date with
  | .vTs t => decide (low.key < t.key ∧ t.key ≤ qnow.key)
  | _ => false

/-- The Delta Fetcher's semantics (lines 83-115): the rows of the
source table satisfying the `WHERE` clause, sorted descending by
`uploadDate`. -/
def deltaOf (low qnow : DateTime) (src : List Row) : List Row :=
  List.insertionSort rowGe (src.filter (inWindow low qnow))

/-- `range(0, stop, step)` for a positive step: the multiples of
`step` below `stop`. -/
def pyRange (stop step : Nat) : List Nat :=
  (List.range ((stop + step - 1) / step)).map (· * step)

/-- `l[i:i+n]`. -/
def pySlice (l : List α) (i n : Nat) : List α :=
  (l.drop i).take n

/-- `batch_size = 1000` (line 182). -/
def batch_size : Nat := 1000

/-- The batch partition the loop of lines 191-192 walks:
`jobs_data[i:i+batch_size]` for `i in range(0, len(jobs_data),
batch_size)`. -/
def batchesOf (l : List α) (b : Nat) : List (List α) :=
  (pyRange l.length b).map (fun i => pySlice l i b)

/-- Outcome of one `supabase.table(...).insert(batch).execute()` call:
either the call returns and the destination confirms `confirmed` rows
(`len(response.data)`, 0 when `response.data` is empty or `None`), or
the call raises. -/
inductive InsertOutcome where
  | ok (confirmed : Nat)
  | raise
deriving DecidableEq, Repr

/-- Body of the Batch Writer loop (lines 193-201) for one batch
`(k, batch)`: a non-empty batch is sent; a successful call adds the
confirmed count to `total_inserted`, a raising call is caught per
batch and adds the batch length to `total_errors`. -/
def writeStep (ins : Nat → InsertOutcome) (acc : Nat × Nat) (kb : Nat × List TargetRecord) :
    Nat × Nat :=
  if kb.2 ≠ [] then
    match ins kb.1 with
    | .ok c => (acc.1 + c, acc.2)
    | .raise => (acc.1, acc.2 + kb.2.length)
  else acc

/-- The Batch Writer loop (lines 190-201): walk the indexed batches in
order, keeping `(total_inserted, total_errors)`. -/
def writeBatches (ins : Nat → InsertOutcome) (bs : List (List TargetRecord)) : Nat × Nat :=
  bs.enum.foldl (writeStep ins) (0, 0)

/-- Contribution of batch `(k, b)` to `total_inserted`. -/
def insertedOf (ins : Nat → InsertOutcome) (kb : Nat × List TargetRecord) : Nat :=
  if kb.2 ≠ [] then
    match ins kb.1 with
    | .ok c => c
    | .raise => 0
  else 0

/-- Contribution of batch `(k, b)` to `total_errors`. -/
def failedOf (ins : Nat → InsertOutcome) (kb : Nat × List TargetRecord) : Nat :=
  if kb.2 ≠ [] then
    match ins kb.1 with
    | .ok _ => 0
    | .raise => kb.2.length
  else 0

/-- Control-flow outcome of one run of the script. -/
inductive RunResult where
  | abortedFetch
  | noNewJobs
  | crashed (msg : String)
  | noPrepared
  | completed (attempted inserted failed : Nat)
deriving DecidableEq, Repr

/-- Observable trace of one run: its outcome, the prepared `jobs_data`
list, and the batches for which an insert call was attempted. -/
structure RunTrace where
  result : RunResult
  prepared : List TargetRecord
  writes : List (List TargetRecord)
deriving DecidableEq, Repr

/-- One run of the script after the connections are up (lines 38-224):
resolve the watermark, run the delta query (whose low bound is the
interpolated `max_upload_date_str`; `fetchFails` injects a
`pd.read_sql` failure, which `exit()`s), stop on an empty delta,
normalize every row (an uncaught conversion error crashes the loop),
then batch-write and report.  `now` is the wall clock at watermark
resolution, `qnow` the wall clock when the database evaluates
`CURRENT_TIMESTAMP`. -/
def runPipeline (wm : WatermarkOutcome) (now qnow : DateTime) (fetchFails : Bool)
    (src : List Row) (ins : Nat → InsertOutcome) : RunTrace :=
  let lowStr := (resolveWatermark wm now).1
  if fetchFails then ⟨.abortedFetch, [], []⟩
  else
    match parseTs lowStr with
    | none => ⟨.abortedFetch, [], []⟩
    | some low =>
      let df := deltaOf low qnow src
      if df.length = 0 then ⟨.noNewJobs, [], []⟩
      else
        match df.mapM job_data with
        | .error e => ⟨.crashed e, [], []⟩
        | .ok jobs_data =>
          if 0 < jobs_data.length then
            let bs := batchesOf jobs_data batch_size
            let totals := writeBatches ins bs
            ⟨.completed jobs_data.length totals.1 totals.2, jobs_data,
              bs.filter (· ≠ [])⟩
          else ⟨.noPrepared, jobs_data, []⟩

/-- The success-rate line (line 210): printed only in the `completed`
state; the divisor is the attempted count. -/
def successRatePct : RunResult → Option ℚ
  | .completed attempted inserted _ => some ((inserted : ℚ) / (attempted : ℚ) * 100)
  | _ => none

/-- A typed source record as §3 of the design describes it: ids and
counters integer-or-absent, text fields string-or-absent, timestamps
timestamp-or-absent, `years_exp_required` unconstrained. -/
structure SourceRecord where
  job_id : Option Int
  job_role_id : Option Int
  job_role_name : Option String
  source : Option String
  title : Option String
  company : Option String
  location : Option String
  url : Option String
  description : Option String
  raw_text : Option String
  date_posted : Option DateTime
  hours_back_posted : Option Int
  years_exp_required : PyVal
  upload_date : Option DateTime
  ingested_at : Option DateTime
deriving DecidableEq, Repr

/-- Embed an optional integer as a dataframe cell. -/
def cellInt : Option Int → PyVal
  | some n => .vInt n
  | none => .vNone

/-- Embed an optional string as a dataframe cell. -/
def cellStr : Option String → PyVal
  | some s => .vStr s
  | none => .vNone

/-- Embed an optional timestamp as a dataframe cell. -/
def cellTs : Option DateTime → PyVal
  | some t => .vTs t
  | none => .vNone

/-- The dataframe row carrying a typed source record. -/
def rowOfSource (s : SourceRecord) : Row where
  job_id := cellInt s.job_id
  job_role_id := cellInt s.job_role_id
  job_role_name := cellStr s.job_role_name
  source := cellStr s.source
  title := cellStr s.title
  company := cellStr s.company
  location := cellStr s.location
  url := cellStr s.url
  description := cellStr s.description
  raw_text := cellStr s.raw_text
  date_posted := cellTs s.date_posted
  hours_back_posted := cellInt s.hours_back_posted
  years_exp_required := s.years_exp_required
  upload_date := cellTs s.upload_date
  ingested_at := cellTs s.ingested_at

/-- The per-field-type defaulting policy exactly as §4.3's table words
it: identifiers become integers when present and stay explicitly
absent otherwise; short text becomes the empty string when absent
except `job_role_name`, which stays absent; `hours_back_posted`
becomes zero when absent; `years_exp_required` is passed through
untouched (absent stays absent); timestamps are rendered as canonical
ISO text when present and stay absent otherwise; `country` is always
the fixed literal. -/
def specNormalize (s : SourceRecord) : TargetRecord where
  job_id := match s.job_id with | some n => .vInt n | none => .vNone
  job_role_id := match s.job_role_id with | some n => .vInt n | none => .vNone
  job_role_name := match s.job_role_name with | some x => .vStr x | none => .vNone
  source := match s.source with | some x => .vStr x | none => .vStr ""
  title := match s.title with | some x => .vStr x | none => .vStr ""
  company := match s.company with | some x => .vStr x | none => .vStr ""
  location := match s.location with | some x => .vStr x | none => .vStr ""
  url := match s.url with | some x => .vStr x | none => .vStr ""
  description := match s.description with | some x => .vStr x | none => .vStr ""
  raw_text := match s.raw_text with | some x => .vStr x | none => .vStr ""
  date_posted := match s.date_posted with | some t => .vStr t.isoformat | none => .vNone
  hours_back_posted := match s.hours_back_posted with | some n => .vInt n | none => .vInt 0
  years_exp_required := s.years_exp_required
  upload_date := match s.upload_date with | some t => .vStr t.isoformat | none => .vNone
  ingested_at := match s.ingested_at with | some t => .vStr t.isoformat | none => .vNone
  country := .vStr "United States of America"

/-- A delta row with a given `upload_date` cell and every other column
absent. -/
def mkRow (upload : PyVal) : Row :=
  ⟨.vNone, .vNone, .vNone, .vNone, .vNone, .vNone, .vNone, .vNone,
   .vNone, .vNone, .vNone, .vNone, .vNone, upload, .vNone⟩

/-- A sample normalized record, used in concrete instances. -/
def tgtW : TargetRecord :=
  ⟨.vNone, .vNone, .vNone, .vStr "", .vStr "", .vStr "", .vStr "", .vStr "", .vStr "",
   .vStr "", .vNone, .vInt 0, .vNone, .vNone, .vNone, .vStr "United States of America"⟩

/-- Insert outcomes in which the first batch raises and every later
batch is confirmed with two rows. -/
def insW : Nat → InsertOutcome := fun k => if k = 0 then .raise else .ok 2

/-- A concrete batch list: two full batches of three and a final
batch of one. -/
def bsW : List (List TargetRecord) := [[tgtW, tgtW, tgtW], [tgtW, tgtW, tgtW], [tgtW]]

/-- A concrete five-record input list. -/
def lst5 : List TargetRecord := [tgtW, tgtW, tgtW, tgtW, tgtW]

theorem guardInt_cellInt (o : Option Int) (d : PyVal) :
    guardInt (cellInt o) d = .ok (match o with | some n => .vInt n | none => d) := by
  cases o <;> rfl

theorem guardIso_cellTs (o : Option DateTime) :
    guardIso (cellTs o) = .ok (match o with | some t => .vStr t.isoformat | none => .vNone) := by
  cases o <;> rfl

theorem passOr_cellStr (o : Option String) (d : PyVal) :
    passOr (cellStr o) d = (match o with | some x => .vStr x | none => d) := by
  cases o <;> rfl

theorem passOr_vNone (v : PyVal) : passOr v .vNone = v := by
  cases v <;> rfl

/-- C3: on every typed source record the Normalizer implements exactly
the per-field-type defaulting policy of §4.3's table: ids become
integers when present and stay explicitly absent otherwise; the short
text fields default to the empty string while `job_role_name` stays
absent; `hours_back_posted` defaults to 0; `years_exp_required` passes
through untouched; timestamps are rendered as canonical ISO text when
present and stay absent otherwise; `country` is always the fixed
literal. -/
theorem normalizer_policy (s : SourceRecord) :
    job_data (rowOfSource s) = .ok (specNormalize s) := by
  simp only [job_data, rowOfSource, guardInt_cellInt, guardIso_cellTs, passOr_cellStr,
    passOr_vNone, bind, Except.bind, specNormalize]
  rcases s.job_role_name with _ | x <;> rfl

theorem guardInt_intLike (v d : PyVal) (h : intLike v = true) :
    ∃ w, guardInt v d = .ok w := by
  cases v with
  | vNone => exact ⟨d, rfl⟩
  | vInt n => exact ⟨.vInt n, rfl⟩
  | vStr s => simp [intLike] at h
  | vTs t => simp [intLike] at h

theorem guardIso_tsLike (v : PyVal) (h : tsLike v = true) :
    ∃ w, guardIso v = .ok w := by
  cases v with
  | vNone => exact ⟨.vNone, rfl⟩
  | vTs t => exact ⟨.vStr t.isoformat, rfl⟩
  | vInt n => simp [tsLike] at h
  | vStr s => simp [tsLike] at h

/-- C4: the Normalizer is total on every row of the shape the database
delivers (ids and counters integer-or-absent, timestamps
timestamp-or-absent): it returns a TargetRecord and never raises — the
`int()` and `.isoformat()` conversions are reached only behind the
`pd.notna` guards and only on values of the expected kind. -/
theorem normalizer_total (r : Row) (h : wellTypedRow r = true) :
    ∃ t, job_data r = Except.ok t := by
  simp only [wellTypedRow, Bool.and_eq_true] at h
  obtain ⟨⟨⟨⟨⟨h1, h2⟩, h3⟩, h4⟩, h5⟩, h6⟩ := h
  obtain ⟨w1, e1⟩ := guardInt_intLike r.job_id .vNone h1
  obtain ⟨w2, e2⟩ := guardInt_intLike r.job_role_id .vNone h2
  obtain ⟨w3, e3⟩ := guardInt_intLike r.hours_back_posted (.vInt 0) h3
  obtain ⟨w4, e4⟩ := guardIso_tsLike r.date_posted h4
  obtain ⟨w5, e5⟩ := guardIso_tsLike r.upload_date h5
  obtain ⟨w6, e6⟩ := guardIso_tsLike r.ingested_at h6
  refine ⟨⟨w1, w2, passOr r.job_role_name .vNone, passOr r.source (.vStr ""),
    passOr r.title (.vStr ""), passOr r.company (.vStr ""), passOr r.location (.vStr ""),
    passOr r.url (.vStr ""), passOr r.description (.vStr ""), passOr r.raw_text (.vStr ""),
    w4, w3, passOr r.years_exp_required .vNone, w5, w6,
    .vStr "United States of America"⟩, ?_⟩
  simp only [job_data, bind, Except.bind, e1, e2, e3, e4, e5, e6]

/-- Witness for C4 at the record in which every field is
simultaneously absent. -/
theorem normalizer_total_witness :
    wellTypedRow (mkRow .vNone) = true ∧ ∃ t, job_data (mkRow .vNone) = Except.ok t :=
  ⟨by decide, normalizer_total (mkRow .vNone) (by decide)⟩

/-- C7: any error while resolving the watermark makes the resolver
return exactly what the empty-destination case returns — the epoch
sentinel `1970-01-01 00:00:00` (which the query layer reads back as
the epoch instant) as the low bound and the current wall-clock time as
the high bound — rather than aborting the run. -/
theorem watermark_fallback (now : DateTime) :
    resolveWatermark .error now = ("1970-01-01 00:00:00", DateTime.strftimeSql now) ∧
      resolveWatermark .error now = resolveWatermark (.ok none) now ∧
      parseTs "1970-01-01 00:00:00" = some epochDT :=
  ⟨rfl, rfl, by decide⟩

theorem inWindow_iff (low qnow : DateTime) (r : Row) :
    inWindow low qnow r = true ↔
      ∃ t, r.upload_date = .vTs t ∧ low.key < t.key ∧ t.key ≤ qnow.key := by
  cases hu : r.upload_date <;> simp [inWindow, hu]

/-- C2: the Delta Fetcher returns a permutation of exactly those
source rows whose `upload_date` is strictly greater than the low bound
and at or before the timestamp at which the query executes
(`CURRENT_TIMESTAMP`, the `qnow` argument — not the earlier-computed
`end_date_str`, which the query never mentions), sorted in descending
order of `upload_date`. -/
theorem delta_fetch_spec (low qnow : DateTime) (src : List Row) :
    List.Perm (deltaOf low qnow src) (src.filter (inWindow low qnow)) ∧
      List.Sorted rowGe (deltaOf low qnow src) ∧
      ∀ r, r ∈ deltaOf low qnow src ↔
        r ∈ src ∧ ∃ t, r.upload_date = .vTs t ∧ low.key < t.key ∧ t.key ≤ qnow.key := by
  refine ⟨List.perm_insertionSort rowGe _, List.sorted_insertionSort rowGe _, fun r => ?_⟩
  unfold deltaOf
  rw [(List.perm_insertionSort rowGe _).mem_iff, List.mem_filter, inWindow_iff]

/-- C1 (counterexample): with a destination maximum of
`2024-01-01T00:00:00`, the low bound interpolated into the query is
the formatted maximum itself, `2024-01-01 00:00:00`, and not the
maximum advanced by one day; a run over a source row with upload date
`2024-01-01T12:00:00` — a row that is not strictly after the claimed
`2024-01-02` low bound — fetches and syncs that row. -/
theorem watermark_plus_day_cex :
    (resolveWatermark (.ok (some ⟨2024, 1, 1, 0, 0, 0⟩)) ⟨2024, 6, 1, 0, 0, 0⟩).1 =
        "2024-01-01 00:00:00" ∧
      (resolveWatermark (.ok (some ⟨2024, 1, 1, 0, 0, 0⟩)) ⟨2024, 6, 1, 0, 0, 0⟩).1 ≠
        DateTime.strftimeSql (DateTime.addOneDay ⟨2024, 1, 1, 0, 0, 0⟩) ∧
      (runPipeline (.ok (some ⟨2024, 1, 1, 0, 0, 0⟩)) ⟨2024, 6, 1, 0, 0, 0⟩
          ⟨2024, 6, 1, 0, 0, 0⟩ false [mkRow (.vTs ⟨2024, 1, 1, 12, 0, 0⟩)]
          (fun _ => .ok 1)).result = .completed 1 1 0 ∧
      ¬ (⟨2024, 1, 2, 0, 0, 0⟩ : DateTime).key < (⟨2024, 1, 1, 12, 0, 0⟩ : DateTime).key := by
  refine ⟨rfl, by decide, by decide, by decide⟩

/-- C1 (amended): when the destination holds a maximum non-null
upload_date, the resolver uses that maximum itself (formatted) as the
delta-query low bound; the value advanced by one day is only the
second component (`end_date_str`, the printed end of the date range)
and is never interpolated into the query, whose only interpolated
value is the low string.  The fetched rows are exactly those strictly
after the maximum; on the spec's example data the delta is still
exactly the `2024-01-03` row followed by the `2024-01-02` row. -/
theorem watermark_low_bound_amended :
    (∀ (d now : DateTime),
        resolveWatermark (.ok (some d)) now =
          (DateTime.strftimeSql d, DateTime.strftimeSql (DateTime.addOneDay d))) ∧
      (∀ s, sql_query s = sqlPre ++ s ++ sqlPost) ∧
      parseTs (resolveWatermark (.ok (some ⟨2024, 1, 1, 0, 0, 0⟩)) ⟨2024, 6, 1, 0, 0, 0⟩).1 =
        some ⟨2024, 1, 1, 0, 0, 0⟩ ∧
      deltaOf ⟨2024, 1, 1, 0, 0, 0⟩ ⟨2024, 6, 1, 0, 0, 0⟩
          [mkRow (.vTs ⟨2024, 1, 2, 0, 0, 0⟩), mkRow (.vTs ⟨2024, 1, 3, 0, 0, 0⟩),
            mkRow (.vTs ⟨2023, 12, 31, 0, 0, 0⟩)] =
        [mkRow (.vTs ⟨2024, 1, 3, 0, 0, 0⟩), mkRow (.vTs ⟨2024, 1, 2, 0, 0, 0⟩)] :=
  ⟨fun d now => rfl, fun s => rfl, by decide, by decide⟩

/-- C8: a failing delta fetch is fatal — the run aborts at once, with
no prepared records and no insert call attempted, for every state of
the watermark, the clocks, the source table and the destination. -/
theorem delta_fetch_error_fatal (wm : WatermarkOutcome) (now qnow : DateTime)
    (src : List Row) (ins : Nat → InsertOutcome) :
    runPipeline wm now qnow true src ins = ⟨.abortedFetch, [], []⟩ := rfl

theorem writeStep_eq (ins : Nat → InsertOutcome) (acc : Nat × Nat)
    (kb : Nat × List TargetRecord) :
    writeStep ins acc kb = (acc.1 + insertedOf ins kb, acc.2 + failedOf ins kb) := by
  unfold writeStep insertedOf failedOf
  by_cases h : kb.2 = []
  · simp [h]
  · cases hik : ins kb.1 <;> simp [h, hik]

theorem foldl_writeStep (ins : Nat → InsertOutcome) (l : List (Nat × List TargetRecord)) :
    ∀ acc, l.foldl (writeStep ins) acc =
      (acc.1 + (l.map (insertedOf ins)).sum, acc.2 + (l.map (failedOf ins)).sum) := by
  induction l with
  | nil => intro acc; simp
  | cons kb l ih =>
    intro acc
    simp [List.foldl_cons, writeStep_eq, ih, Nat.add_assoc]

/-- C6: the writer's totals decompose into independent per-batch
contributions, so a raising batch never stops the loop: every batch's
contribution is summed whatever the other batches did; a batch whose
insert raises contributes exactly its full row count to
`total_errors`, and a batch whose insert is confirmed contributes
exactly its confirmed count to `total_inserted`. -/
theorem batch_failure_isolation (ins : Nat → InsertOutcome) (bs : List (List TargetRecord)) :
    writeBatches ins bs =
        ((bs.enum.map (insertedOf ins)).sum, (bs.enum.map (failedOf ins)).sum) ∧
      (∀ k, ∀ hk : k < bs.length, ins k = .raise →
        failedOf ins (k, bs.get ⟨k, hk⟩) = (bs.get ⟨k, hk⟩).length) ∧
      (∀ j, ∀ hj : j < bs.length, ∀ c, ins j = .ok c → bs.get ⟨j, hj⟩ ≠ [] →
        insertedOf ins (j, bs.get ⟨j, hj⟩) = c) := by
  refine ⟨by simpa using foldl_writeStep ins bs.enum (0, 0), ?_, ?_⟩
  · intro k hk hraise
    simp [failedOf, hraise]
    intro h2
    simp [h2]
  · intro j hj c hok hne
    simp [insertedOf, hne, hok]
    intro h2
    exact absurd h2 hne

/-- Witness for C6: three batches in which the first raises — its
three rows are all counted failed, yet the two later batches are
still attempted and their confirmed rows (2 + 2) still land in
`total_inserted`. -/
theorem batch_failure_isolation_witness :
    writeBatches insW bsW = (4, 3) ∧ failedOf insW (0, [tgtW, tgtW, tgtW]) = 3 := by
  obtain ⟨h1, h2, -⟩ := batch_failure_isolation insW bsW
  refine ⟨?_, ?_⟩
  · rw [h1]; rfl
  · exact h2 0 (by decide) rfl

theorem sum_map_addf {α : Type} (l : List α) (f g : α → Nat) :
    (l.map f).sum + (l.map g).sum = (l.map (fun x => f x + g x)).sum := by
  induction l with
  | nil => rfl
  | cons a l ih => simp only [List.map_cons, List.sum_cons]; omega

theorem enumFrom_map_snd {α : Type} (l : List α) :
    ∀ k, (List.enumFrom k l).map Prod.snd = l := by
  induction l with
  | nil => intro k; rfl
  | cons a l ih => intro k; simp [List.enumFrom, ih]

/-- C10: as long as the destination confirms at most as many rows as
each batch carries, `total_inserted + total_errors` never exceeds the
attempted count, and a partially rejected batch (confirmed < sent)
makes the inequality strict: its shortfall lands in neither counter. -/
theorem totals_accounting (ins : Nat → InsertOutcome) (bs : List (List TargetRecord))
    (hconf : ∀ kb ∈ bs.enum, ∀ c, ins kb.1 = .ok c → c ≤ kb.2.length) :
    ((writeBatches ins bs).1 + (writeBatches ins bs).2 ≤ (bs.map List.length).sum) ∧
      (writeBatches (fun _ => .ok 0) [[tgtW]]).1 +
          (writeBatches (fun _ => .ok 0) [[tgtW]]).2 <
        ([[tgtW]].map List.length).sum := by
  constructor
  · have hw : writeBatches ins bs =
        ((bs.enum.map (insertedOf ins)).sum, (bs.enum.map (failedOf ins)).sum) := by
      simpa using foldl_writeStep ins bs.enum (0, 0)
    rw [hw]
    simp only
    rw [sum_map_addf]
    have hle : (bs.enum.map (fun kb => insertedOf ins kb + failedOf ins kb)).sum ≤
        (bs.enum.map (fun kb => kb.2.length)).sum := by
      apply List.sum_le_sum
      intro kb hkb
      rcases hik : ins kb.1 with c | _
      · by_cases hne : kb.2 = []
        · simp [insertedOf, failedOf, hne]
        · have hc := hconf kb hkb c hik
          simp [insertedOf, failedOf, hne, hik]
          omega
      · by_cases hne : kb.2 = [] <;> simp [insertedOf, failedOf, hne, hik]
    have h2 : bs.enum.map Prod.snd = bs := enumFrom_map_snd bs 0
    calc (bs.enum.map (fun kb => insertedOf ins kb + failedOf ins kb)).sum
        ≤ (bs.enum.map (fun kb => kb.2.length)).sum := hle
      _ = (bs.map List.length).sum := by
        rw [show (fun kb : Nat × List TargetRecord => kb.2.length) =
          List.length ∘ Prod.snd from rfl, ← List.map_map, h2]
  · decide

/-- Witness for C10 at a single fully confirmed batch. -/
theorem totals_accounting_witness :
    (writeBatches (fun _ => .ok 1) [[tgtW]]).1 +
        (writeBatches (fun _ => .ok 1) [[tgtW]]).2 ≤
      ([[tgtW]].map List.length).sum :=
  (totals_accounting (fun _ => .ok 1) [[tgtW]] (by
    intro kb hkb c hc
    simp at hkb
    subst hkb
    injection hc with h
    simp
    omega)).1
theorem batchesOf_nil {α : Type} (b : Nat) : batchesOf ([] : List α) (b+1) = [] := by
  have h : b / (b + 1) = 0 := Nat.div_eq_of_lt (by omega)
  simp [batchesOf, pyRange, h]

theorem batchesOf_cons {α : Type} (l : List α) (b : Nat) (hl : l ≠ []) :
    batchesOf l (b+1) = l.take (b+1) :: batchesOf (l.drop (b+1)) (b+1) := by
  have hn : 1 ≤ l.length := List.length_pos.mpr hl
  have hm : (l.length + (b+1) - 1) / (b+1) = (l.length - 1) / (b+1) + 1 := by
    have h1 : l.length + (b+1) - 1 = (l.length - 1) + (b+1) := by omega
    rw [h1, Nat.add_div_right _ (Nat.succ_pos b)]
  have hk : ((l.drop (b+1)).length + (b+1) - 1) / (b+1) = (l.length - 1) / (b+1) := by
    rw [List.length_drop]
    rcases Nat.le_total (b+1) l.length with h | h
    · have h2 : l.length - (b+1) + (b+1) - 1 = l.length - 1 := by omega
      rw [h2]
    · have h2 : l.length - (b+1) = 0 := by omega
      rw [h2, Nat.div_eq_of_lt (by omega), Nat.div_eq_of_lt (by omega)]
  show (pyRange l.length (b+1)).map (fun i => pySlice l i (b+1)) = _
  rw [pyRange, hm, List.range_succ_eq_map]
  simp only [List.map_cons, List.map_map]
  congr 1
  · simp [pySlice]
  · rw [batchesOf, pyRange, hk, List.map_map]
    apply List.map_congr_left
    intro j _
    simp only [Function.comp]
    show pySlice l ((j + 1) * (b+1)) (b+1) = pySlice (l.drop (b+1)) (j * (b+1)) (b+1)
    rw [Nat.succ_mul]
    simp only [pySlice, List.drop_drop]
    congr 2
    omega

theorem batchesOf_join_aux {α : Type} (b : Nat) :
    ∀ (n : Nat) (l : List α), l.length ≤ n → (batchesOf l (b+1)).flatten = l := by
  intro n
  induction n with
  | zero =>
    intro l hl
    rw [List.length_eq_zero.mp (Nat.le_zero.mp hl), batchesOf_nil]
    rfl
  | succ n ih =>
    intro l hl
    by_cases h : l = []
    · rw [h, batchesOf_nil]; rfl
    · rw [batchesOf_cons l b h, List.flatten_cons,
        ih (l.drop (b+1)) (by rw [List.length_drop]; omega)]
      exact List.take_append_drop (b+1) l

theorem batchesOf_length {α : Type} (l : List α) (b : Nat) :
    (batchesOf l (b+1)).length = (l.length + b) / (b+1) := by
  simp only [batchesOf, pyRange, List.length_map, List.length_range]
  rw [show l.length + (b + 1) - 1 = l.length + b from by omega]

theorem batchesOf_ne_nil_aux {α : Type} (b : Nat) :
    ∀ (n : Nat) (l : List α), l.length ≤ n → ∀ bl ∈ batchesOf l (b+1), bl ≠ [] := by
  intro n
  induction n with
  | zero =>
    intro l hl
    rw [List.length_eq_zero.mp (Nat.le_zero.mp hl), batchesOf_nil]
    intro bl hbl
    exact absurd hbl (List.not_mem_nil bl)
  | succ n ih =>
    intro l hl
    by_cases h : l = []
    · rw [h, batchesOf_nil]
      intro bl hbl
      exact absurd hbl (List.not_mem_nil bl)
    · rw [batchesOf_cons l b h]
      intro bl hbl
      rcases List.mem_cons.mp hbl with rfl | hmem
      · intro htake
        rcases List.take_eq_nil_iff.mp htake with h0 | h0
        · exact Nat.succ_ne_zero b h0
        · exact h h0
      · exact ih (l.drop (b+1)) (by rw [List.length_drop]; omega) bl hmem

theorem getLast?_cons_ne {α : Type} (a : α) (r : List α) (h : r ≠ []) :
    (a :: r).getLast? = r.getLast? := by
  cases r with
  | nil => exact absurd rfl h
  | cons x xs => exact List.getLast?_cons_cons

theorem batchesOf_getD_aux {α : Type} (b : Nat) :
    ∀ (n : Nat) (l : List α), l.length ≤ n →
      ∀ i, i + 1 < (batchesOf l (b+1)).length →
        ((batchesOf l (b+1)).getD i []).length = b + 1 := by
  intro n
  induction n with
  | zero =>
    intro l hl i hi
    rw [List.length_eq_zero.mp (Nat.le_zero.mp hl), batchesOf_nil] at hi
    exact absurd hi (by simp)
  | succ n ih =>
    intro l hl i hi
    by_cases h : l = []
    · rw [h, batchesOf_nil] at hi
      exact absurd hi (by simp)
    · rw [batchesOf_cons l b h] at hi ⊢
      cases i with
      | zero =>
        have hlen : 1 ≤ (batchesOf (l.drop (b+1)) (b+1)).length := by
          simp only [List.length_cons] at hi
          omega
        rw [batchesOf_length, List.length_drop] at hlen
        have hge : b + 1 + 1 ≤ l.length := by
          rcases Nat.le_total l.length (b+1) with hc | hc
          · have h0 : l.length - (b+1) = 0 := by omega
            rw [h0, Nat.div_eq_of_lt (by omega)] at hlen
            omega
          · have h1 : 1 * (b+1) ≤ l.length - (b+1) + b := by
              rw [← Nat.le_div_iff_mul_le (Nat.succ_pos b)]
              exact hlen
            omega
        show (l.take (b+1)).length = b + 1
        rw [List.length_take]
        omega
      | succ i =>
        simp only [List.length_cons] at hi
        show ((batchesOf (l.drop (b+1)) (b+1)).getD i []).length = b + 1
        exact ih (l.drop (b+1)) (by rw [List.length_drop]; omega) i (by omega)

theorem batchesOf_getLast_aux {α : Type} (b : Nat) :
    ∀ (n : Nat) (l : List α), l.length ≤ n → l ≠ [] →
      ∃ last, (batchesOf l (b+1)).getLast? = some last ∧
        last.length = if l.length % (b+1) = 0 then b + 1 else l.length % (b+1) := by
  intro n
  induction n with
  | zero =>
    intro l hl hne
    exact absurd (List.length_eq_zero.mp (Nat.le_zero.mp hl)) hne
  | succ n ih =>
    intro l hl hne
    rw [batchesOf_cons l b hne]
    by_cases hd : l.drop (b+1) = []
    · have hle : l.length ≤ b + 1 := by
        have := List.drop_eq_nil_iff.mp hd
        omega
      have hpos : 1 ≤ l.length := List.length_pos.mpr hne
      rw [hd, batchesOf_nil]
      refine ⟨l.take (b+1), rfl, ?_⟩
      rw [List.length_take]
      rcases Nat.lt_or_ge l.length (b+1) with hc | hc
      · rw [Nat.mod_eq_of_lt hc, if_neg (by omega)]
        omega
      · have heq : l.length = b + 1 := by omega
        rw [heq]
        simp
    · have hgt : b + 1 ≤ l.length := by
        by_contra hc
        exact hd (List.drop_eq_nil_iff.mpr (by omega))
      obtain ⟨last, hlast, hlen⟩ := ih (l.drop (b+1)) (by rw [List.length_drop]; omega) hd
      have hrest : batchesOf (l.drop (b+1)) (b+1) ≠ [] := by
        intro h0
        rw [h0] at hlast
        exact Option.noConfusion hlast
      refine ⟨last, ?_, ?_⟩
      · rw [getLast?_cons_ne _ _ hrest]
        exact hlast
      · rw [hlen, List.length_drop, ← Nat.mod_eq_sub_mod hgt]

/-- C5: with the fixed batch size 1000 (and in general for any
positive batch size B), the slicing loop partitions the N prepared
records into exactly ⌈N/B⌉ = (N + B - 1) / B batches, whose
concatenation is the input in its original order; every batch is
non-empty (so every one is attempted past the emptiness guard), every
batch but the last has exactly B records, and the last batch has
N mod B records (or B when N mod B = 0). -/
theorem batch_partition :
    batch_size = 1000 ∧
    ∀ (b : Nat), 0 < b → ∀ (l : List TargetRecord),
      (batchesOf l b).length = (l.length + b - 1) / b ∧
      (batchesOf l b).flatten = l ∧
      (∀ bl ∈ batchesOf l b, bl ≠ []) ∧
      (∀ i (hi : i + 1 < (batchesOf l b).length),
        ((batchesOf l b).get ⟨i, Nat.lt_of_succ_lt hi⟩).length = b) ∧
      (l ≠ [] → ∃ last, (batchesOf l b).getLast? = some last ∧
        last.length = if l.length % b = 0 then b else l.length % b) := by
  refine ⟨rfl, ?_⟩
  intro b hb l
  obtain ⟨b, rfl⟩ : ∃ c, b = c + 1 := ⟨b - 1, by omega⟩
  refine ⟨?_, batchesOf_join_aux b l.length l (Nat.le_refl _),
    batchesOf_ne_nil_aux b l.length l (Nat.le_refl _), ?_,
    fun hne => batchesOf_getLast_aux b l.length l (Nat.le_refl _) hne⟩
  · rw [batchesOf_length, show l.length + (b + 1) - 1 = l.length + b from by omega]
  · intro i hi
    have h := batchesOf_getD_aux b l.length l (Nat.le_refl _) i hi
    rw [List.getD_eq_getElem _ _ (Nat.lt_of_succ_lt hi)] at h
    simpa [List.get_eq_getElem] using h

/-- Witness for C5: five records with batch size two give batches
[2, 2, 1]. -/
theorem batch_partition_witness :
    0 < 2 ∧
      (batchesOf lst5 2).flatten = lst5 ∧
      ((batchesOf lst5 2).get ⟨0, by decide⟩).length = 2 ∧
      (∃ last, (batchesOf lst5 2).getLast? = some last ∧
        last.length = if lst5.length % 2 = 0 then 2 else lst5.length % 2) := by
  obtain ⟨-, h⟩ := batch_partition
  obtain ⟨hlen, hflat, hne, hmid, hlast⟩ := h 2 (by decide) lst5
  exact ⟨by decide, hflat, hmid 0 (by decide), hlast (by decide)⟩

/-- C9: whenever a run reaches the completed state — the only state
whose report prints a success rate — the attempted count dividing the
rate is positive, and the rate is confirmed-inserted over attempted
(as a percentage); a zero-row delta instead ends the run successfully
in the no-new-jobs state, before any rate is computed. -/
theorem success_rate_guarded (wm : WatermarkOutcome) (now qnow : DateTime)
    (fetchFails : Bool) (src : List Row) (ins : Nat → InsertOutcome) :
    (∀ a i f, (runPipeline wm now qnow fetchFails src ins).result = .completed a i f →
        0 < a ∧ successRatePct (.completed a i f) = some ((i : ℚ) / (a : ℚ) * 100)) ∧
      (∀ low, fetchFails = false →
        parseTs (resolveWatermark wm now).1 = some low →
        deltaOf low qnow src = [] →
        (runPipeline wm now qnow fetchFails src ins).result = .noNewJobs) := by
  constructor
  · intro a i f h
    refine ⟨?_, rfl⟩
    simp only [runPipeline] at h
    split at h
    · simp at h
    · split at h
      · simp at h
      · split at h
        · simp at h
        · split at h
          · simp at h
          · split at h
            · simp at h
              omega
            · simp at h
  · intro low hf hp hd
    subst hf
    simp only [runPipeline, hp, hd]
    rfl

/-- Witness for C9: a one-row delta completes with attempted = 1, and
an empty source ends in the no-new-jobs state. -/
theorem success_rate_guarded_witness :
    (0 < 1 ∧ successRatePct (.completed 1 1 0) = some ((1 : ℚ) / (1 : ℚ) * 100)) ∧
      (runPipeline (.ok (some ⟨2024, 1, 1, 0, 0, 0⟩)) ⟨2024, 6, 1, 0, 0, 0⟩
          ⟨2024, 6, 1, 0, 0, 0⟩ false [] (fun _ => .ok 1)).result = .noNewJobs := by
  constructor
  · exact (success_rate_guarded (.ok (some ⟨2024, 1, 1, 0, 0, 0⟩)) ⟨2024, 6, 1, 0, 0, 0⟩
      ⟨2024, 6, 1, 0, 0, 0⟩ false [mkRow (.vTs ⟨2024, 1, 2, 0, 0, 0⟩)]
      (fun _ => .ok 1)).1 1 1 0 (by decide)
  · exact (success_rate_guarded (.ok (some ⟨2024, 1, 1, 0, 0, 0⟩)) ⟨2024, 6, 1, 0, 0, 0⟩
      ⟨2024, 6, 1, 0, 0, 0⟩ false [] (fun _ => .ok 1)).2 ⟨2024, 1, 1, 0, 0, 0⟩ rfl
      (by decide) (by decide)
